import Mathlib

/-!
Shallow embedding of the training script `framework/train.py` of the
challenge-ens repository, together with proofs of the specified properties
of its data-pipeline and training-orchestration core.

Numeric quantities computed by the script (class weights, split sizes) are
modelled over `ℚ` and `ℕ`; the seeded pseudorandom shuffle performed by the
standard library on the file list is modelled by an executable seeded
Fisher-Yates permutation (the repository only relies on it being a
deterministic, seed-indexed permutation of its input).
-/

namespace ChallengeENS

/-- Embedding of line 19 of train.py: the fixed random seed. -/
def SEED : Nat := 42

/-- Embedding of lines 103-104 of train.py:
`class_weight = np.zeros((N_CLASSES,))` followed by
`class_weight[2:] = (1 / TRAIN_CLASS_COUNTS[2:]) * TRAIN_CLASS_COUNTS[2:].sum() / (N_CLASSES - 2)`,
for an arbitrary table `counts` of per-class pixel counts (so
`N_CLASSES = counts.length`). -/
def class_weight (counts : List ℚ) : List ℚ :=
  (List.range counts.length).map (fun i =>
    if i < 2 then 0
    else 1 / counts.getD i 0 * (counts.drop 2).sum / ((counts.length : ℚ) - 2))

theorem class_weight_length (counts : List ℚ) :
    (class_weight counts).length = counts.length := by
  simp [class_weight]

theorem class_weight_getD (counts : List ℚ) (i : Nat) (hi : i < counts.length) :
    (class_weight counts).getD i 0 =
      if i < 2 then 0
      else 1 / counts.getD i 0 * (counts.drop 2).sum / ((counts.length : ℚ) - 2) := by
  unfold class_weight
  rw [List.getD_eq_getElem?_getD, List.getElem?_map, List.getElem?_range hi]
  simp

/-- Arithmetic mean of the class-weight entries over the non-ignored class
indices (i ≥ 2), the quantity the specification calls the mean of the
inverse-frequency normalized entries. -/
def nonignored_mean (counts : List ℚ) : ℚ :=
  (∑ i in Finset.Ico 2 counts.length, (class_weight counts).getD i 0) /
    ((counts.length : ℚ) - 2)

/-- Next-state function of a linear congruential generator, used to drive the
modelled seeded shuffle. -/
def lcg (s : Nat) : Nat := (1664525 * s + 1013904223) % 2 ^ 32

/-- Fuelled Fisher-Yates permutation: at each step the element at the
pseudorandom index determined by the current generator state is moved to the
front and removed from the pool. The fuel is always instantiated with the
length of the list. -/
def shuffleFuel {α : Type} [DecidableEq α] : Nat → Nat → List α → List α
  | 0, _, _ => []
  | _ + 1, _, [] => []
  | fuel + 1, s, a :: t =>
    let x := (a :: t).getD (s % (a :: t).length) a
    x :: shuffleFuel fuel (lcg s) ((a :: t).erase x)

/-- Model of line 78 of train.py,
`train_files = random.sample(train_files, len(train_files))`: a deterministic
seed-indexed pseudorandom permutation of the file list (the script relies on
the library sampler only through this interface). -/
def shuffle {α : Type} [DecidableEq α] (s : Nat) (l : List α) : List α :=
  shuffleFuel l.length s l

/-- Embedding of line 81 of train.py:
`valset_size = int(len(train_files) * 0.1)`. -/
def valset_size (n : Nat) : Nat := ⌊(n : ℚ) * (1 / 10)⌋₊

/-- Embedding of line 82 of train.py:
`trainset_size = len(train_files) - valset_size`. -/
def trainset_size (n : Nat) : Nat := n - valset_size n

/-- Embedding of lines 78-83 of train.py: seeded shuffle of the file list,
then `train_files, val_files = train_files[valset_size:], train_files[:valset_size]`.
Returns the pair (train_files, val_files). -/
def split_files {α : Type} [DecidableEq α] (seed : Nat) (l : List α) : List α × List α :=
  let p := shuffle seed l
  let v := valset_size p.length
  (p.drop v, p.take v)

/-- Pipeline stages applied to a tf.data.Dataset in train.py. -/
inductive DatasetOp
  | fromTensorSlices (files : List String)
  | mapParseImage
  | mapLoadImageTrain
  | mapLoadImageTest
  | shuffleOp (bufferSize seed : Nat)
  | repeatOp
  | batchOp (batchSize : Nat)
  | prefetchOp
  deriving DecidableEq

/-- Embedding of lines 85-86 and 90-94 of train.py: the stage list of the
training dataset pipeline. -/
def train_dataset_ops (files : List String) (batchSize : Nat) : List DatasetOp :=
  [DatasetOp.fromTensorSlices files, DatasetOp.mapParseImage,
   DatasetOp.mapLoadImageTrain, DatasetOp.shuffleOp 1024 SEED,
   DatasetOp.repeatOp, DatasetOp.batchOp batchSize, DatasetOp.prefetchOp]

/-- Embedding of lines 87-88 and 96-99 of train.py: the stage list of the
validation dataset pipeline. -/
def val_dataset_ops (files : List String) (batchSize : Nat) : List DatasetOp :=
  [DatasetOp.fromTensorSlices files, DatasetOp.mapParseImage,
   DatasetOp.mapLoadImageTest, DatasetOp.repeatOp,
   DatasetOp.batchOp batchSize, DatasetOp.prefetchOp]

/-- Semantics of an infinitely repeated dataset: the k-th element of
`dataset.repeat()` built over the finite element list l. -/
def repeatStream {α : Type} (l : List α) (k : Nat) : Option α :=
  l[k % l.length]?

/-- Semantics of the validation sample stream of lines 87-88 and 96-97:
map the test-time transform over the validation files, then repeat; no
shuffle stage is applied. -/
def val_sample_stream {β : Type} (loadTest : String → β)
    (files : List String) (k : Nat) : Option β :=
  repeatStream (files.map loadTest) k

/-- Collect a list of optional values, failing if any is missing. -/
def optTraverse {α : Type} : List (Option α) → Option (List α)
  | [] => some []
  | some x :: rest => (optTraverse rest).map (fun ys => x :: ys)
  | none :: _ => none

/-- Semantics of `.repeat().batch(batchSize)`: the k-th batch drawn from the
repeated stream over the element list l. -/
def nthBatch {α : Type} (l : List α) (batchSize k : Nat) : Option (List α) :=
  optTraverse ((List.range batchSize).map
    (fun i => repeatStream l (batchSize * k + i)))

/-- Embedding of line 161 of train.py:
`steps_per_epoch=trainset_size // config.batch_size`. -/
def steps_per_epoch (trainsetSize batchSize : Nat) : Nat :=
  trainsetSize / batchSize

/-- Embedding of line 163 of train.py:
`validation_steps=valset_size // config.batch_size`. -/
def validation_steps (valsetSize batchSize : Nat) : Nat :=
  valsetSize / batchSize

/-- Fields of the TrainingConfig section read by _parse_args. -/
structure TrainingConfig where
  xp_rootdir : String
  dataset_folder : String
  batch_size : Nat
  epochs : Nat
  lr : ℚ

/-- Failure modes of configuration loading in _parse_args (lines 49-62):
unreadable or malformed YAML, missing TrainingConfig section, or a declared
path that is not an existing directory. -/
inductive ConfigError
  | missingFile
  | malformedYaml
  | missingSection
  | xpRootdirNotDir
  | datasetFolderNotDir
  deriving DecidableEq

/-- Embedding of _parse_args (lines 49-62 of train.py): reading and parsing
the YAML file is abstracted as the `readConfig` outcome, and the two
`assert ...is_dir()` checks consult the `isDir` oracle, in source order. -/
def parse_args (readConfig : Except ConfigError TrainingConfig)
    (isDir : String → Bool) : Except ConfigError TrainingConfig :=
  match readConfig with
  | Except.error e => Except.error e
  | Except.ok cfg =>
    if isDir cfg.xp_rootdir then
      if isDir cfg.dataset_folder then Except.ok cfg
      else Except.error ConfigError.datasetFolderNotDir
    else Except.error ConfigError.xpRootdirNotDir

/-- Directories existing on the filesystem, as a flat list of paths. -/
structure FileSystem where
  dirs : List String

/-- Embedding of lines 108-111 of train.py: create the timestamped
experiment directory and its tensorboard, plots and checkpoints children. -/
def mkdir_tree (fs : FileSystem) (xpDir : String) : FileSystem :=
  { dirs := fs.dirs ++
      [xpDir, xpDir ++ "/tensorboard", xpDir ++ "/plots", xpDir ++ "/checkpoints"] }

/-- Embedding of the filesystem-relevant control flow of the script body
(lines 64-111): configuration parsing runs first and any ConfigError
terminates the process before the experiment directories of lines 108-111
are created. -/
def run_script (readConfig : Except ConfigError TrainingConfig)
    (isDir : String → Bool) (timestamp : String) (fs : FileSystem) :
    FileSystem × Except ConfigError Unit :=
  match parse_args readConfig isDir with
  | Except.error e => (fs, Except.error e)
  | Except.ok cfg =>
    (mkdir_tree fs (cfg.xp_rootdir ++ "/" ++ timestamp), Except.ok ())

theorem sum_range_getD (l : List ℚ) :
    ∑ i in Finset.range l.length, l.getD i 0 = l.sum := by
  induction l with
  | nil => simp
  | cons a t ih =>
    rw [List.length_cons, Finset.sum_range_succ']
    simp only [List.getD_cons_succ, List.getD_cons_zero]
    rw [ih, List.sum_cons]
    ring

theorem getD_drop (l : List ℚ) (k i : Nat) :
    (l.drop k).getD i 0 = l.getD (k + i) 0 := by
  rw [List.getD_eq_getElem?_getD, List.getD_eq_getElem?_getD, List.getElem?_drop]

theorem sum_Ico_getD (l : List ℚ) :
    ∑ i in Finset.Ico 2 l.length, l.getD i 0 = (l.drop 2).sum := by
  rw [Finset.sum_Ico_eq_sum_range]
  have hlen : (l.drop 2).length = l.length - 2 := by simp
  calc ∑ i in Finset.range (l.length - 2), l.getD (2 + i) 0
      = ∑ i in Finset.range ((l.drop 2).length), (l.drop 2).getD i 0 := by
        rw [hlen]
        exact Finset.sum_congr rfl (fun i _ => (getD_drop l 2 i).symm)
    _ = (l.drop 2).sum := sum_range_getD _

theorem getD_pos_of_drop (l : List ℚ) (hpos : ∀ c ∈ l.drop 2, 0 < c)
    (i : Nat) (h2 : 2 ≤ i) (hi : i < l.length) : 0 < l.getD i 0 := by
  have heq : l.getD i 0 = (l.drop 2).getD (i - 2) 0 := by
    rw [getD_drop]
    congr 1
    omega
  rw [heq]
  have hlt : i - 2 < (l.drop 2).length := by
    simp only [List.length_drop]
    omega
  rw [List.getD_eq_getElem?_getD, List.getElem?_eq_getElem hlt]
  exact hpos _ (List.getElem_mem hlt)

theorem weight_mul_count_sum (counts : List ℚ)
    (hpos : ∀ c ∈ counts.drop 2, 0 < c) :
    ∑ i in Finset.Ico 2 counts.length,
        (class_weight counts).getD i 0 * counts.getD i 0
      = ∑ i in Finset.Ico 2 counts.length, counts.getD i 0 := by
  rcases le_or_lt counts.length 2 with hn | hn
  · rw [Finset.Ico_eq_empty (by omega)]
    simp
  · have hK : ((counts.length : ℚ) - 2) ≠ 0 := by
      have h2 : (2 : ℚ) < (counts.length : ℚ) := by exact_mod_cast hn
      linarith
    have hterm : ∀ i ∈ Finset.Ico 2 counts.length,
        (class_weight counts).getD i 0 * counts.getD i 0 =
          (counts.drop 2).sum / ((counts.length : ℚ) - 2) := by
      intro i hi
      rw [Finset.mem_Ico] at hi
      have hc := getD_pos_of_drop counts hpos i hi.1 hi.2
      rw [class_weight_getD counts i hi.2, if_neg (by omega)]
      have hc' : counts.getD i 0 ≠ 0 := ne_of_gt hc
      field_simp
      have hc'' : counts[i]?.getD 0 ≠ 0 := by
        rwa [List.getD_eq_getElem?_getD] at hc'
      rw [mul_assoc]
      exact mul_div_cancel_right₀ _ (mul_ne_zero hc'' hK)
    rw [Finset.sum_congr rfl hterm, Finset.sum_const, Nat.card_Ico,
      sum_Ico_getD, nsmul_eq_mul]
    have hcast : ((counts.length - 2 : ℕ) : ℚ) = (counts.length : ℚ) - 2 := by
      have h2 : 2 ≤ counts.length := by omega
      exact Nat.cast_sub h2
    rw [hcast, mul_div_cancel₀ _ hK]

end ChallengeENS

namespace ChallengeENS

/-- C1: the class weight vector has weight[0] = weight[1] = 0 and, for every
class index i ≥ 2, weight[i] = (1 / count[i]) * (sum of count[j] over j ≥ 2)
/ (N_CLASSES - 2); in particular, for counts [100, 50, 10, 40] with
N_CLASSES = 4 the result is [0, 0, 2.5, 0.625]. -/
theorem claim_C1 (counts : List ℚ) (i : Nat) (hi : i < counts.length) :
    ((i < 2 → (class_weight counts).getD i 0 = 0) ∧
     (2 ≤ i → (class_weight counts).getD i 0 =
        1 / counts.getD i 0 * (counts.drop 2).sum / ((counts.length : ℚ) - 2))) ∧
    class_weight [100, 50, 10, 40] = [0, 0, 5/2, 5/8] := by
  refine ⟨⟨fun h => ?_, fun h => ?_⟩, ?_⟩
  · rw [class_weight_getD counts i hi, if_pos h]
  · rw [class_weight_getD counts i hi, if_neg (by omega)]
  · show class_weight [100, 50, 10, 40] = [0, 0, 5/2, 5/8]
    simp [class_weight, List.range_succ]
    norm_num

/-- Witness for claim_C1 at the concrete index 2 of the example table. -/
theorem claim_C1_witness :
    ((2 < ([100, 50, 10, 40] : List ℚ).length) ∧
      (class_weight [100, 50, 10, 40]).getD 2 0 = 5/2) := by
  have h := claim_C1 [100, 50, 10, 40] 2 (by norm_num)
  refine ⟨by norm_num, ?_⟩
  rw [h.2]
  norm_num

/-- C5: balancing identity of the class weights. For every table of positive
class counts, weight[i] > 0 whenever count[i] > 0 for i ≥ 2, and the sum over
i ≥ 2 of weight[i] * count[i] equals the sum of count[i] over i ≥ 2. -/
theorem claim_C5 (counts : List ℚ) (hpos : ∀ c ∈ counts.drop 2, 0 < c) :
    (∀ i, 2 ≤ i → i < counts.length → 0 < counts.getD i 0 →
        0 < (class_weight counts).getD i 0) ∧
    ∑ i in Finset.Ico 2 counts.length,
        (class_weight counts).getD i 0 * counts.getD i 0
      = ∑ i in Finset.Ico 2 counts.length, counts.getD i 0 := by
  refine ⟨fun i h2 hi hc => ?_, weight_mul_count_sum counts hpos⟩
  rw [class_weight_getD counts i hi, if_neg (by omega)]
  have hdrop : counts.drop 2 ≠ [] := by
    have : 0 < (counts.drop 2).length := by
      simp only [List.length_drop]
      omega
    exact List.ne_nil_of_length_pos this
  have hS : 0 < (counts.drop 2).sum := List.sum_pos _ hpos hdrop
  have hK : (0 : ℚ) < (counts.length : ℚ) - 2 := by
    have hn : (2 : ℚ) < (counts.length : ℚ) := by exact_mod_cast (by omega : 2 < counts.length)
    linarith
  exact div_pos (mul_pos (by positivity) hS) hK

/-- Witness for claim_C5 at the concrete counts [100, 50, 10, 40]. -/
theorem claim_C5_witness :
    (0 < (([100, 50, 10, 40] : List ℚ)).getD 2 0 →
        0 < (class_weight [100, 50, 10, 40]).getD 2 0) ∧
    ∑ i in Finset.Ico 2 ([100, 50, 10, 40] : List ℚ).length,
        (class_weight [100, 50, 10, 40]).getD i 0 *
          ([100, 50, 10, 40] : List ℚ).getD i 0
      = ∑ i in Finset.Ico 2 ([100, 50, 10, 40] : List ℚ).length,
          ([100, 50, 10, 40] : List ℚ).getD i 0 := by
  have h := claim_C5 [100, 50, 10, 40]
    (by intro c hc; simp only [List.drop] at hc; fin_cases hc <;> norm_num)
  exact ⟨h.1 2 (by norm_num) (by norm_num), h.2⟩

/-- C4 as stated is false: for the positive count table [100, 50, 10, 40] the
arithmetic mean of the non-zero weight entries over the non-ignored classes is
25/16, not 1. -/
theorem claim_C4_counterexample :
    (∀ c ∈ ([100, 50, 10, 40] : List ℚ).drop 2, 0 < c) ∧
    nonignored_mean [100, 50, 10, 40] ≠ 1 := by
  constructor
  · intro c hc
    simp only [List.drop] at hc
    fin_cases hc <;> norm_num
  · have h24 : Finset.Ico 2 ([100, 50, 10, 40] : List ℚ).length = {2, 3} := by
      decide
    unfold nonignored_mean
    rw [h24, Finset.sum_pair (by norm_num : (2 : ℕ) ≠ 3),
      class_weight_getD _ 2 (by norm_num), class_weight_getD _ 3 (by norm_num)]
    norm_num

/-- C4 (amended): the non-zero entries of the class weight vector are
inverse-frequency normalized such that their count-weighted arithmetic mean
over the non-ignored classes (indices ≥ 2) equals 1, for every table of
positive class counts with more than two classes. -/
theorem claim_C4 (counts : List ℚ) (hpos : ∀ c ∈ counts.drop 2, 0 < c)
    (hn : 2 < counts.length) :
    (∑ i in Finset.Ico 2 counts.length,
        (class_weight counts).getD i 0 * counts.getD i 0) /
      (∑ i in Finset.Ico 2 counts.length, counts.getD i 0) = 1 := by
  rw [weight_mul_count_sum counts hpos]
  apply div_self
  rw [sum_Ico_getD]
  have hdrop : counts.drop 2 ≠ [] := by
    have : 0 < (counts.drop 2).length := by
      simp only [List.length_drop]
      omega
    exact List.ne_nil_of_length_pos this
  exact (List.sum_pos _ hpos hdrop).ne'

theorem shuffleFuel_perm {α : Type} [DecidableEq α] :
    ∀ (fuel s : Nat) (l : List α), l.length ≤ fuel → (shuffleFuel fuel s l).Perm l
  | 0, _, l, h => by
    have hl : l = [] := List.length_eq_zero.mp (Nat.le_zero.mp h)
    subst hl
    simp [shuffleFuel]
  | _ + 1, _, [], _ => by simp [shuffleFuel]
  | fuel + 1, s, a :: t, h => by
    have hlt : s % (a :: t).length < (a :: t).length :=
      Nat.mod_lt _ (by simp)
    have hx : (a :: t).getD (s % (a :: t).length) a ∈ a :: t := by
      rw [List.getD_eq_getElem?_getD, List.getElem?_eq_getElem hlt]
      exact List.getElem_mem hlt
    have hlen :
        ((a :: t).erase ((a :: t).getD (s % (a :: t).length) a)).length ≤ fuel := by
      have herase := List.length_erase_add_one hx
      omega
    exact ((shuffleFuel_perm fuel (lcg s) _ hlen).cons _).trans
      (List.perm_cons_erase hx).symm

theorem shuffle_perm {α : Type} [DecidableEq α] (s : Nat) (l : List α) :
    (shuffle s l).Perm l :=
  shuffleFuel_perm l.length s l le_rfl

theorem shuffle_length {α : Type} [DecidableEq α] (s : Nat) (l : List α) :
    (shuffle s l).length = l.length :=
  (shuffle_perm s l).length_eq

theorem valset_size_eq (n : Nat) : valset_size n = n / 10 := by
  unfold valset_size
  rw [mul_one_div, show ((10 : ℚ)) = ((10 : ℕ) : ℚ) by norm_num,
    Nat.floor_div_nat, Nat.floor_natCast]

theorem split_files_snd {α : Type} [DecidableEq α] (seed : Nat) (l : List α) :
    (split_files seed l).2 = (shuffle seed l).take (valset_size l.length) := by
  show (shuffle seed l).take (valset_size (shuffle seed l).length) = _
  rw [shuffle_length]

theorem split_files_fst {α : Type} [DecidableEq α] (seed : Nat) (l : List α) :
    (split_files seed l).1 = (shuffle seed l).drop (valset_size l.length) := by
  show (shuffle seed l).drop (valset_size (shuffle seed l).length) = _
  rw [shuffle_length]

theorem repeatStream_isSome {α : Type} (l : List α) (hl : l ≠ []) (m : Nat) :
    ∃ x, repeatStream l m = some x := by
  unfold repeatStream
  have hlt : m % l.length < l.length := Nat.mod_lt _ (List.length_pos.mpr hl)
  rw [List.getElem?_eq_getElem hlt]
  exact ⟨_, rfl⟩

theorem optTraverse_isSome {α : Type} :
    ∀ (os : List (Option α)), (∀ o ∈ os, ∃ x, o = some x) →
      ∃ ys, optTraverse os = some ys ∧ ys.length = os.length
  | [], _ => ⟨[], rfl, rfl⟩
  | o :: rest, h => by
    obtain ⟨x, hx⟩ := h o (List.mem_cons_self o rest)
    obtain ⟨ys, hys, hlen⟩ := optTraverse_isSome rest
      (fun o' ho' => h o' (List.mem_cons_of_mem _ ho'))
    subst hx
    refine ⟨x :: ys, ?_, by simp [hlen]⟩
    simp [optTraverse, hys]

/-- Witness for claim_C4 at the concrete counts [100, 50, 10, 40]. -/
theorem claim_C4_witness :
    (∑ i in Finset.Ico 2 ([100, 50, 10, 40] : List ℚ).length,
        (class_weight [100, 50, 10, 40]).getD i 0 *
          ([100, 50, 10, 40] : List ℚ).getD i 0) /
      (∑ i in Finset.Ico 2 ([100, 50, 10, 40] : List ℚ).length,
          ([100, 50, 10, 40] : List ℚ).getD i 0) = 1 :=
  claim_C4 [100, 50, 10, 40]
    (by intro c hc; simp only [List.drop] at hc; fin_cases hc <;> norm_num)
    (by norm_num)

/-- C2: for every file list of size N ≥ 1, the split sets
valset_size = floor(0.1 * N) and trainset_size = N - valset_size; after the
seeded permutation, the first valset_size elements become the validation set
and the remaining elements become the training set, so the two subsets are
disjoint and jointly cover the whole list. -/
theorem claim_C2 (l : List String) (hN : 1 ≤ l.length) :
    valset_size l.length = ⌊(0.1 : ℚ) * (l.length : ℚ)⌋₊ ∧
    trainset_size l.length = l.length - valset_size l.length ∧
    (split_files SEED l).2 = (shuffle SEED l).take (valset_size l.length) ∧
    (split_files SEED l).1 = (shuffle SEED l).drop (valset_size l.length) ∧
    (∀ x, x ∈ l ↔ x ∈ (split_files SEED l).1 ∨ x ∈ (split_files SEED l).2) ∧
    (l.Nodup → ∀ x, x ∈ (split_files SEED l).2 → x ∉ (split_files SEED l).1) := by
  refine ⟨?_, rfl, split_files_snd SEED l, split_files_fst SEED l, ?_, ?_⟩
  · unfold valset_size
    rw [show (0.1 : ℚ) = 1 / 10 by norm_num, mul_comm]
  · intro x
    rw [split_files_fst, split_files_snd]
    have hperm := shuffle_perm SEED l
    have happ := List.take_append_drop (valset_size l.length) (shuffle SEED l)
    constructor
    · intro hx
      have hx' : x ∈ shuffle SEED l := hperm.mem_iff.mpr hx
      rw [← happ, List.mem_append] at hx'
      tauto
    · intro hx
      apply hperm.mem_iff.mp
      rw [← happ, List.mem_append]
      tauto
  · intro hnd x hxval hxtrain
    have hpn : (shuffle SEED l).Nodup := ((shuffle_perm SEED l).nodup_iff).mpr hnd
    rw [← List.take_append_drop (valset_size l.length) (shuffle SEED l)] at hpn
    have hdisj := (List.nodup_append.mp hpn).2.2
    rw [split_files_snd] at hxval
    rw [split_files_fst] at hxtrain
    exact hdisj hxval hxtrain

/-- Witness for claim_C2 at the concrete file list ["a", "b", "c"]. -/
theorem claim_C2_witness :
    (∀ x, x ∈ ["a", "b", "c"] ↔
        x ∈ (split_files SEED ["a", "b", "c"]).1 ∨
        x ∈ (split_files SEED ["a", "b", "c"]).2) ∧
    (∀ x, x ∈ (split_files SEED ["a", "b", "c"]).2 →
        x ∉ (split_files SEED ["a", "b", "c"]).1) := by
  have h := claim_C2 ["a", "b", "c"] (by norm_num)
  exact ⟨h.2.2.2.2.1, h.2.2.2.2.2 (by simp)⟩

/-- C3: splitting is deterministic: running the shuffle-and-split twice with
the same file list and the same seed yields identical train and validation
partitions. -/
theorem claim_C3 {α : Type} [DecidableEq α] (l₁ l₂ : List α) (s₁ s₂ : Nat)
    (hl : l₁ = l₂) (hs : s₁ = s₂) :
    split_files s₁ l₁ = split_files s₂ l₂ := by
  rw [hl, hs]

/-- Witness for claim_C3: two runs on the same concrete list and seed. -/
theorem claim_C3_witness :
    split_files 42 ["x", "y", "z"] = split_files 42 ["x", "y", "z"] :=
  claim_C3 ["x", "y", "z"] ["x", "y", "z"] 42 42 rfl rfl

/-- C6: shuffling of samples applies only to the training stream, using a
bounded buffer of 1024 pending elements seeded with the same seed as the
split; the validation stream is never shuffled, its sample order being the
deterministic order of the validation file list. -/
theorem claim_C6 {β : Type} (files valFiles : List String) (b : Nat)
    (loadTest : String → β) :
    DatasetOp.shuffleOp 1024 SEED ∈ train_dataset_ops files b ∧
    (∀ bufferSize seed, DatasetOp.shuffleOp bufferSize seed ∉ val_dataset_ops valFiles b) ∧
    (∀ k, k < valFiles.length →
        val_sample_stream loadTest valFiles k = Option.map loadTest valFiles[k]?) := by
  refine ⟨?_, ?_, ?_⟩
  · simp [train_dataset_ops]
  · intro bufferSize seed h
    simp [val_dataset_ops] at h
  · intro k hk
    unfold val_sample_stream repeatStream
    rw [List.length_map, Nat.mod_eq_of_lt hk, List.getElem?_map]

/-- Witness for claim_C6 on concrete file lists. -/
theorem claim_C6_witness :
    val_sample_stream (fun s => s) ["b", "c"] 0 = some "b" ∧
    DatasetOp.shuffleOp 1024 SEED ∈ train_dataset_ops ["a"] 4 := by
  have h := claim_C6 ["a"] ["b", "c"] 4 (fun s => s)
  refine ⟨?_, h.1⟩
  rw [h.2.2 0 (by norm_num)]
  rfl

/-- C7: both the training and validation streams repeat indefinitely and
never exhaust: for every finite non-empty dataset, every positive batch size
and every finite n, drawing n successive batches from the repeated, batched
stream succeeds (and every batch has the full batch size). -/
theorem claim_C7 {α : Type} (l : List α) (b n : Nat) (hl : l ≠ []) (hb : 0 < b) :
    ∀ k, k < n → ∃ batch, nthBatch l b k = some batch ∧ batch.length = b := by
  intro k _
  obtain ⟨ys, hys, hlen⟩ := optTraverse_isSome
    ((List.range b).map (fun i => repeatStream l (b * k + i)))
    (by
      intro o ho
      rw [List.mem_map] at ho
      obtain ⟨i, _, rfl⟩ := ho
      exact repeatStream_isSome l hl _)
  refine ⟨ys, hys, ?_⟩
  rw [hlen, List.length_map, List.length_range]

/-- Witness for claim_C7 at a concrete three-element dataset. -/
theorem claim_C7_witness :
    ∃ batch, nthBatch [1, 2, 3] 2 0 = some batch ∧ batch.length = 2 :=
  claim_C7 [1, 2, 3] 2 5 (by simp) (by norm_num) 0 (by norm_num)

/-- C8: the training loop uses per-epoch step counts equal to
floor(trainset_size / batch_size) optimizer steps and
floor(valset_size / batch_size) validation steps, for every trainset_size,
valset_size and positive batch_size. -/
theorem claim_C8 (t v b : Nat) (hb : 0 < b) :
    steps_per_epoch t b = ⌊(t : ℚ) / (b : ℚ)⌋₊ ∧
    validation_steps v b = ⌊(v : ℚ) / (b : ℚ)⌋₊ := by
  have h1 : ⌊(t : ℚ) / (b : ℚ)⌋₊ = t / b := by
    rw [Nat.floor_div_nat, Nat.floor_natCast]
  have h2 : ⌊(v : ℚ) / (b : ℚ)⌋₊ = v / b := by
    rw [Nat.floor_div_nat, Nat.floor_natCast]
  exact ⟨h1.symm, h2.symm⟩

/-- Witness for claim_C8 at trainset_size 10, valset_size 3, batch_size 4. -/
theorem claim_C8_witness :
    steps_per_epoch 10 4 = ⌊(10 : ℚ) / (4 : ℚ)⌋₊ ∧
    validation_steps 3 4 = ⌊(3 : ℚ) / (4 : ℚ)⌋₊ := by
  have h := claim_C8 10 3 4 (by norm_num)
  exact_mod_cast h

/-- C9: configuration failure is atomic with respect to the filesystem: on a
ConfigError the script terminates with that error and the directory set is
unchanged, so no child of xp_rootdir is created; moreover an unreadable or
malformed config propagates its error, and a declared xp_rootdir that is not
an existing directory raises a ConfigError. -/
theorem claim_C9 (readConfig : Except ConfigError TrainingConfig)
    (isDir : String → Bool) (timestamp : String) (fs : FileSystem)
    (e : ConfigError) (h : parse_args readConfig isDir = Except.error e) :
    (run_script readConfig isDir timestamp fs).2 = Except.error e ∧
    (run_script readConfig isDir timestamp fs).1.dirs = fs.dirs ∧
    (∀ e0, readConfig = Except.error e0 →
        parse_args readConfig isDir = Except.error e0) ∧
    (∀ cfg, readConfig = Except.ok cfg → isDir cfg.xp_rootdir = false →
        parse_args readConfig isDir = Except.error ConfigError.xpRootdirNotDir) := by
  refine ⟨?_, ?_, ?_, ?_⟩
  · simp [run_script, h]
  · simp [run_script, h]
  · intro e0 h0
    subst h0
    rfl
  · intro cfg h0 hdir
    subst h0
    simp [parse_args, hdir]

/-- Witness for claim_C9 on a concrete missing-config-file run. -/
theorem claim_C9_witness :
    (run_script (Except.error ConfigError.missingFile) (fun _ => true) "ts"
        { dirs := ["root"] }).2 = Except.error ConfigError.missingFile ∧
    (run_script (Except.error ConfigError.missingFile) (fun _ => true) "ts"
        { dirs := ["root"] }).1.dirs = ["root"] := by
  have h := claim_C9 (Except.error ConfigError.missingFile) (fun _ => true)
    "ts" { dirs := ["root"] } ConfigError.missingFile rfl
  exact ⟨h.1, h.2.1⟩

/-- C10: implicit edge case: for every training-file list with
1 ≤ N < 10 elements, valset_size = 0, so the validation set is empty, all N
files become training files, and validation_steps = 0 // batch_size = 0. -/
theorem claim_C10 (l : List String) (b : Nat) (h1 : 1 ≤ l.length)
    (h10 : l.length < 10) :
    valset_size l.length = 0 ∧
    (split_files SEED l).2 = [] ∧
    (∀ x, x ∈ (split_files SEED l).1 ↔ x ∈ l) ∧
    (split_files SEED l).1.length = l.length ∧
    validation_steps (valset_size l.length) b = 0 := by
  have hv : valset_size l.length = 0 := by
    rw [valset_size_eq]
    omega
  refine ⟨hv, ?_, ?_, ?_, ?_⟩
  · rw [split_files_snd, hv, List.take_zero]
  · intro x
    rw [split_files_fst, hv, List.drop_zero]
    exact (shuffle_perm SEED l).mem_iff
  · rw [split_files_fst, hv, List.drop_zero, shuffle_length]
  · rw [hv]
    simp [validation_steps]

/-- Witness for claim_C10 at a concrete three-element file list. -/
theorem claim_C10_witness :
    valset_size (["a", "b", "c"] : List String).length = 0 ∧
    (split_files SEED ["a", "b", "c"]).2 = [] ∧
    validation_steps (valset_size (["a", "b", "c"] : List String).length) 4 = 0 := by
  have h := claim_C10 ["a", "b", "c"] 4 (by norm_num) (by norm_num)
  exact ⟨h.1, h.2.1, h.2.2.2.2⟩

end ChallengeENS
